import Mathlib

/-!
Verification of the snapy capture/replay engine.

Shallow embedding of the core components of the repository:
  * `src/src/snapy/capture/config.py`   — `CaptureConfig` pattern matching
  * `src/src/snapy_capture/filters.py`  — `ArgumentFilter` (sensitivity filter)
  * `src/src/snapy/capture/storage.py` and `src/src/snapy_capture/storage.py`
    (identical for the modelled parts) — `CaptureStorage`
  * `src/src/snapy_capture/loader.py`   — `CaptureLoader`
  * `src/src/capture/capture.py`        — side-effect replay bridge
  * `src/src/snapy/capture/capture.py`  — capture decorator wrapper
  * `src/src/snapy_testing/tracer.py`   — `FunctionTracer`

Python values are modelled by the inductive `Value`; the filesystem under the
storage root is modelled as an association list from file name to record
(the constant base directory prefix is omitted from paths); wall-clock
instants (`datetime.now()`) are modelled as natural numbers counting
microseconds and are passed in explicitly.
-/

namespace Snapy

/-! ## String helpers

Character-level models of the Python string operations the source uses
(`str.lower`, `str.upper`, substring containment, `str.replace('*', '')`);
written over `List Char` so that concrete instances evaluate by kernel
reduction. -/

/-- Python `str.lower` (for the ASCII names and patterns the source
handles). -/
def pyLower (s : String) : String :=
  String.mk (s.toList.map Char.toLower)

/-- Python `str.upper`. -/
def pyUpper (s : String) : String :=
  String.mk (s.toList.map Char.toUpper)

/-- Python `pat in hay` (substring containment). -/
def strContainsSub (hay pat : String) : Bool :=
  hay.toList.tails.any (fun t => pat.toList.isPrefixOf t)

/-- Python `pattern.replace("*", "")`: drop every `*` character. -/
def stripWildcards (p : String) : String :=
  String.mk (p.toList.filter (fun ch => ch ≠ '*'))

/-- Glob matching on character lists: `*` matches any (possibly empty) run of
characters, every other character matches itself literally.  The first
argument is fuel making the recursion structural; every step shortens
`pattern + text` by at least one character, so any fuel above
`pattern.length + text.length` computes the unbounded relation and the
`fuel = 0` arm is unreachable. -/
def globMatchL : Nat → List Char → List Char → Bool
  | 0, _, _ => false
  | _ + 1, [], ts => ts.isEmpty
  | fuel + 1, p :: ps, ts =>
      if p = '*' then
        match ts with
        | [] => globMatchL fuel ps []
        | _ :: ts' => globMatchL fuel ps ts || globMatchL fuel (p :: ps) ts'
      else
        match ts with
        | [] => false
        | t :: ts' => p == t && globMatchL fuel ps ts'

/-- Anchored glob match of a whole string. -/
def globMatch (pattern text : String) : Bool :=
  globMatchL (pattern.length + text.length + 1) pattern.toList text.toList

/-- Embeds `CaptureConfig._match_pattern` (src/src/snapy/capture/config.py): the
pattern's `*` wildcards become `.*`, the result is anchored with `^...$` and
matched case-insensitively.  For patterns free of regex metacharacters other
than `*` (the only kind the configuration uses) this is exactly an anchored,
case-insensitive glob match. -/
def matchPattern (pattern text : String) : Bool :=
  globMatch (pyLower pattern) (pyLower text)

/-! ## Configuration (`src/src/snapy/capture/config.py`) -/

/-- The fields of `CaptureConfig` consumed by the filtering component. -/
structure CaptureConfig where
  ignore_args : List String
  minimal_capture : Bool := false
  production_mode : Bool := false

/-- Default value of `CaptureConfig.ignore_args` (the
`SNAP_CAPTURE_IGNORE_ARGS` fallback list). -/
def defaultIgnoreArgs : List String :=
  ["password", "token", "secret", "key", "auth"]

/-- Embeds `CaptureConfig.is_arg_ignored`: some configured pattern matches the whole
argument name. -/
def CaptureConfig.is_arg_ignored (c : CaptureConfig) (argName : String) : Bool :=
  c.ignore_args.any (fun p => matchPattern p argName)

/-! ## Python values -/

/-- Model of the Python values flowing through capture and filtering:
primitives, dictionaries (insertion-ordered key/value lists), lists, tuples
and sets. -/
inductive Value where
  | vInt : Int → Value
  | vStr : String → Value
  | vBool : Bool → Value
  | vNone : Value
  | vDict : List (String × Value) → Value
  | vList : List Value → Value
  | vTuple : List Value → Value
  | vSet : List Value → Value

mutual

/-- Python `==` on modelled values (dict comparison is handled by
`beqEntries` below; sequence comparison is positional). -/
def beqValue : Value → Value → Bool
  | .vInt a, .vInt b => a == b
  | .vStr a, .vStr b => a == b
  | .vBool a, .vBool b => a == b
  | .vNone, .vNone => true
  | .vDict a, .vDict b => beqEntries a b
  | .vList a, .vList b => beqValues a b
  | .vTuple a, .vTuple b => beqValues a b
  | .vSet a, .vSet b => beqValues a b
  | _, _ => false

/-- Positional equality of value lists. -/
def beqValues : List Value → List Value → Bool
  | [], [] => true
  | a :: as_, b :: bs => beqValue a b && beqValues as_ bs
  | _, _ => false

/-- Positional equality of dictionary entry lists. -/
def beqEntries : List (String × Value) → List (String × Value) → Bool
  | [], [] => true
  | (ka, va) :: as_, (kb, vb) :: bs => ka == kb && beqValue va vb && beqEntries as_ bs
  | _, _ => false

end

/-! ## Sensitivity filter (`src/src/snapy_capture/filters.py`)

`snapy_capture/filters.py` imports `CaptureConfig` from its sibling
`config` module; the `CaptureConfig` under `src/src/snapy/capture/config.py`
supplies the `is_arg_ignored` / pattern machinery it consumes. -/

/-- Embeds `ArgumentFilter._build_sensitive_keys`: the built-in sensitive pattern
vocabulary. -/
def builtinSensitivePatterns : List String :=
  ["password", "passwd", "pwd",
   "token", "access_token", "refresh_token", "auth_token",
   "secret", "api_secret", "client_secret",
   "key", "api_key", "private_key", "public_key",
   "auth", "authorization",
   "credential", "creds",
   "session", "sessionid",
   "cookie", "cookies",
   "hash", "salt",
   "pin", "otp",
   "signature", "sign"]

/-- Embeds `ArgumentFilter._build_sensitive_keys`: the built-in vocabulary extended
with the configured ignore patterns, wildcards stripped and lowercased,
skipping empties and duplicates. -/
def buildSensitiveKeys (c : CaptureConfig) : List String :=
  c.ignore_args.foldl
    (fun acc p =>
      let clean := pyLower (stripWildcards p)
      if clean ≠ "" && !(acc.contains clean) then acc ++ [clean] else acc)
    builtinSensitivePatterns

/-- The placeholder written for a filtered key. -/
def keyPlaceholder (k : String) : String :=
  "<FILTERED:" ++ pyUpper k ++ ">"

/-- The placeholder written for a sensitive-looking string value. -/
def sensitiveStringPlaceholder : String :=
  "<FILTERED:SENSITIVE_STRING>"

/-- Embeds `ArgumentFilter._filter_string_value`: a string longer than 10 characters
whose lowercasing contains a sensitive pattern as substring is replaced by
the sensitive-string placeholder; every other value is kept. -/
def filterStringValue (sensitiveKeys : List String) (v : Value) : Value :=
  match v with
  | .vStr s =>
      if sensitiveKeys.any
          (fun p => strContainsSub (pyLower s) p && decide (10 < s.length)) then
        .vStr sensitiveStringPlaceholder
      else v
  | _ => v

/-- Embeds `ArgumentFilter._is_sensitive_key`: a key is sensitive when it is ignored
by configuration or some sensitive pattern occurs as a substring of its
lowercasing. -/
def isSensitiveKey (c : CaptureConfig) (key : String) : Bool :=
  c.is_arg_ignored key ||
    (buildSensitiveKeys c).any (fun p => strContainsSub (pyLower key) p)

/-- Membership of a value in a list up to Python `==`; used to model set
construction. -/
def memValue (v : Value) (l : List Value) : Bool :=
  l.any (fun w => beqValue v w)

/-- Deduplication performed by Python set construction.  Set iteration order
is unspecified in Python; the model keeps the last occurrence of each
equality class. -/
def dedupValues : List Value → List Value
  | [] => []
  | v :: rest => if memValue v rest then dedupValues rest else v :: dedupValues rest

mutual

/-- Embeds `ArgumentFilter._deep_filter_value`: recursive filtering of a value —
dictionaries through `deepFilterEntries`, lists/tuples/sets elementwise
(set results rebuilt as sets, i.e. deduplicated), primitives through
`filterStringValue`. -/
def deepFilterValue (c : CaptureConfig) : Value → Value
  | .vDict es => .vDict (deepFilterEntries c es)
  | .vList vs => .vList (deepFilterItems c vs)
  | .vTuple vs => .vTuple (deepFilterItems c vs)
  | .vSet vs => .vSet (dedupValues (deepFilterItems c vs))
  | v => filterStringValue (buildSensitiveKeys c) v

/-- Embeds `ArgumentFilter._deep_filter_dict`: sensitive keys (per
`_is_sensitive_key`) get the key placeholder, other entries are filtered
recursively. -/
def deepFilterEntries (c : CaptureConfig) : List (String × Value) → List (String × Value)
  | [] => []
  | (k, v) :: rest =>
      if isSensitiveKey c k then
        (k, .vStr (keyPlaceholder k)) :: deepFilterEntries c rest
      else
        (k, deepFilterValue c v) :: deepFilterEntries c rest

/-- Embeds `ArgumentFilter._deep_filter_sequence` elementwise mapping. -/
def deepFilterItems (c : CaptureConfig) : List Value → List Value
  | [] => []
  | v :: rest => deepFilterValue c v :: deepFilterItems c rest

end

/-- One iteration of the `ArgumentFilter.filter_args_dict` loop: a top-level
entry whose name is ignored by the configuration (`is_arg_ignored`) is
replaced by the key placeholder; every other entry's value is
deep-filtered. -/
def filterTopEntry (c : CaptureConfig) (kv : String × Value) : String × Value :=
  if c.is_arg_ignored kv.1 then (kv.1, .vStr (keyPlaceholder kv.1))
  else (kv.1, deepFilterValue c kv.2)

/-- Embeds `ArgumentFilter.filter_args_dict`: filter every named argument. -/
def filter_args_dict (c : CaptureConfig) (args_dict : List (String × Value)) :
    List (String × Value) :=
  args_dict.map (filterTopEntry c)

/-- A `CaptureConfig` built with the default field values
(`ignore_args = ["password", "token", "secret", "key", "auth"]`, flags
off). -/
def defaultConfig : CaptureConfig :=
  { ignore_args := defaultIgnoreArgs }

/-! ## Capture storage (`src/src/snapy/capture/storage.py`,
identical in `src/src/snapy_capture/storage.py`)

`datetime.now()` instants are modelled as microseconds (a `Nat`); the
directory under the storage root is an association list from file name to
the record the file deserializes to (`_save_to_file` writes a temporary
file and atomically renames it over `file_path`, so a write replaces any
earlier file of the same name; in-model deserialization always succeeds).
The constant `base_path` prefix of paths is omitted. -/

/-- Embeds `CaptureMetadata`. -/
structure CaptureMetadata where
  function_name : String
  module_name : String
  timestamp : Nat
  args_count : Nat
  file_path : String

/-- Embeds `CapturedCall`. -/
structure CapturedCall where
  metadata : CaptureMetadata
  args_dict : List (String × Value)

/-- Embeds `CapturedCall.args`: positional view, the values in insertion order. -/
def CapturedCall.args (c : CapturedCall) : List Value :=
  c.args_dict.map Prod.snd

/-- Embeds `CapturedCall.kwargs`: always the empty mapping. -/
def CapturedCall.kwargs (_ : CapturedCall) : List (String × Value) :=
  []

/-- The files of one storage directory. -/
structure StorageState where
  files : List (String × CapturedCall)

/-- The empty storage directory. -/
def emptyStorage : StorageState := ⟨[]⟩

/-- Atomic write(-over) of one file: `os.rename(temp, file_path)` replaces
an existing file of that name, otherwise the file is created. -/
def fsWrite (st : StorageState) (name : String) (c : CapturedCall) : StorageState :=
  if st.files.any (fun e => e.1 == name) then
    ⟨st.files.map (fun e => if e.1 == name then (name, c) else e)⟩
  else
    ⟨st.files ++ [(name, c)]⟩

/-- Every stored record names its own file: `save_capture` writes each
record under the `file_path` recorded in its metadata. -/
def consistentPaths (st : StorageState) : Prop :=
  ∀ e ∈ st.files, e.2.metadata.file_path = e.1

/-- Directory entries have pairwise-distinct file names. -/
def nodupKeys (st : StorageState) : Prop :=
  (st.files.map Prod.fst).Nodup

/-- Embeds `os.remove(file_path)`. -/
def fsRemove (st : StorageState) (name : String) : StorageState :=
  ⟨st.files.filter (fun e => e.1 ≠ name)⟩

/-- Embeds `CaptureStorage._generate_filename`: function name, `_`, the timestamp
rendered at millisecond resolution (`strftime("%Y%m%d_%H%M%S_%f")[:-3]`,
modelled as the decimal millisecond count — equal renderings exactly when
the instants fall in the same millisecond), and `.pkl`. -/
def generate_filename (function_name : String) (timestamp : Nat) : String :=
  function_name ++ "_" ++ toString (timestamp / 1000) ++ ".pkl"

/-- Newest-first comparison used by `list_captures`:
`sort(key=lambda c: c.metadata.timestamp, reverse=True)`. -/
def newerEq (a b : CapturedCall) : Prop :=
  b.metadata.timestamp ≤ a.metadata.timestamp

instance : DecidableRel newerEq :=
  fun a b => Nat.decLe b.metadata.timestamp a.metadata.timestamp

instance : IsTotal CapturedCall newerEq :=
  ⟨fun a b => Nat.le_total b.metadata.timestamp a.metadata.timestamp⟩

instance : IsTrans CapturedCall newerEq :=
  ⟨fun _ _ _ hab hbc => Nat.le_trans hbc hab⟩

/-- The directory entries whose file name glob-matches
`{function_name}_*.pkl` (the `glob.glob` step of `list_captures`). -/
def matching_files (st : StorageState) (function_name : String) :
    List (String × CapturedCall) :=
  st.files.filter (fun e => globMatch (function_name ++ "_*.pkl") e.1)

/-- Embeds `CaptureStorage.list_captures`: glob the directory for
`{function_name}_*.pkl`, load each file (loading never fails in the model)
and sort the records newest-first (Python's stable sort). -/
def list_captures (st : StorageState) (function_name : String) : List CapturedCall :=
  List.insertionSort newerEq ((matching_files st function_name).map Prod.snd)

/-- Embeds `CaptureStorage._has_existing_captures`. -/
def has_existing_captures (st : StorageState) (function_name : String) : Bool :=
  !(list_captures st function_name).isEmpty

/-- Embeds `CaptureStorage._cleanup_old_captures`: list the captures newest-first;
when more than `retention` exist remove the files of all records past the
first `retention` (the oldest ones). -/
def cleanup_old_captures (st : StorageState) (function_name : String)
    (retention : Nat) : StorageState :=
  let captures := list_captures st function_name
  if captures.length ≤ retention then st
  else
    (captures.drop retention).foldl
      (fun s c => fsRemove s c.metadata.file_path) st

/-- The record `save_capture` builds for one call. -/
def mkCapture (function_name module_name : String)
    (args_dict : List (String × Value)) (now : Nat) : CapturedCall :=
  { metadata :=
      { function_name := function_name
        module_name := module_name
        timestamp := now
        args_count := args_dict.length
        file_path := generate_filename function_name now }
    args_dict := args_dict }

/-- The writing path of `CaptureStorage.save_capture`: generate the
timestamped filename, write the record atomically, prune past `retention`,
return the written path. -/
def save_capture_write (st : StorageState) (function_name module_name : String)
    (args_dict : List (String × Value)) (retention : Nat) (now : Nat) :
    StorageState × String :=
  let filename := generate_filename function_name now
  let capture := mkCapture function_name module_name args_dict now
  let stWritten := fsWrite st filename capture
  (cleanup_old_captures stWritten function_name retention, filename)

/-- Embeds `CaptureStorage.save_capture`: under `overwrite=False` with existing
captures, a no-op returning the newest record's path; otherwise the writing
path.  `now` is the `datetime.now()` instant of the call. -/
def save_capture (st : StorageState) (function_name module_name : String)
    (args_dict : List (String × Value)) (retention : Nat) (overwrite : Bool)
    (now : Nat) : StorageState × String :=
  if !overwrite && has_existing_captures st function_name then
    match list_captures st function_name with
    | c :: _ => (st, c.metadata.file_path)
    | [] => save_capture_write st function_name module_name args_dict retention now
  else
    save_capture_write st function_name module_name args_dict retention now

/-- Embeds `CaptureStorage.load_latest_capture`: head of the newest-first list. -/
def load_latest_capture (st : StorageState) (function_name : String) :
    Option CapturedCall :=
  (list_captures st function_name).head?

/-- Embeds `CaptureStorage.load_capture_by_index` (`0 ≤ index < len` else
`None`). -/
def load_capture_by_index (st : StorageState) (function_name : String)
    (index : Nat) : Option CapturedCall :=
  (list_captures st function_name).get? index

/-! ## Loader (`src/src/snapy_capture/loader.py`) -/

/-- Embeds `CaptureLoader.load_latest`: the backward-compatibility
`(args, kwargs)` view of the newest record. -/
def loader_load_latest (st : StorageState) (function_name : String) :
    Option (List Value × List (String × Value)) :=
  match load_latest_capture st function_name with
  | some capture => some (capture.args, capture.kwargs)
  | none => none

/-! ## Side-effect replay bridge (`src/src/capture/capture.py`) -/

/-- One stored side-effect blob: `{"args": ..., "kwargs": ..., "result": ...}`. -/
structure SideEffectRecord where
  args : List Value
  kwargs : List (String × Value)
  result : Value

/-- The Python exceptions raised by the modelled code.  `ValueError` is not
a subclass of `LookupError` (whose subclasses are `IndexError` and
`KeyError`). -/
inductive PyExc where
  | valueErrorExc : String → PyExc
  | lookupErrorExc : String → PyExc

/-- Whether an exception is (an instance of) `LookupError`. -/
def PyExc.isLookupError : PyExc → Bool
  | .lookupErrorExc _ => true
  | _ => false

/-- Python `==` between two kwargs dictionaries: key-set equality with
`==`-equal values (order-insensitive, assuming the well-formed distinct
keys every Python dict has). -/
def lookupEntry (k : String) : List (String × Value) → Option Value
  | [] => none
  | (k', v) :: rest => if k' == k then some v else lookupEntry k rest

/-- Python `==` on dicts (see `lookupEntry`). -/
def beqDict (a b : List (String × Value)) : Bool :=
  a.length == b.length &&
    a.all (fun kv =>
      match lookupEntry kv.1 b with
      | some v => beqValue kv.2 v
      | none => false)

/-- Embeds `side_effect_lookup`: scan the stored blobs in order; the first whose
`(args, kwargs)` compare `==`-equal to the supplied ones is replayed
(`(result, True)`).  On a miss with the test-mode flag set, raise
`ValueError("No matching capture found and SIDE_EFFECT_CAPTURE is not
set")`; otherwise return `(None, False)`. -/
def side_effect_lookup (blobs : List SideEffectRecord) (args : List Value)
    (kwargs : List (String × Value)) (test_mode : Bool) :
    Except PyExc (Option Value × Bool) :=
  match blobs.find? (fun e => beqValues e.args args && beqDict e.kwargs kwargs) with
  | some e => .ok (some e.result, true)
  | none =>
      if test_mode then
        .error (.valueErrorExc
          "No matching capture found and SIDE_EFFECT_CAPTURE is not set")
      else
        .ok (none, false)

/-! ## Capture decorator wrapper (`src/src/snapy/capture/capture.py`) -/

/-- Embeds `_capture_and_call_sync`: run the capture step inside
`try: ... except Exception: warn`, then call the wrapped function with the
original arguments and return its outcome.  `captureOutcome` is the result
of `_capture_arguments` (the updated storage, or the exception it raised);
`func` may itself raise.  (Python's `except Exception` does not catch
`BaseException`s such as `KeyboardInterrupt`; `PyExc` models `Exception`
subclasses.) -/
def capture_and_call_sync (captureOutcome : Except PyExc StorageState)
    (st : StorageState)
    (func : List Value → List (String × Value) → Except PyExc Value)
    (args : List Value) (kwargs : List (String × Value)) :
    StorageState × Except PyExc Value :=
  match captureOutcome with
  | .ok st' => (st', func args kwargs)
  | .error _ => (st, func args kwargs)

/-! ## Function tracer (`src/src/snapy_testing/tracer.py`)

The `sys.settrace` event stream is modelled as a list of raw frame events
(`call` with the bound parameter mapping, `return` with the returned
value); each carries the frame's function name, file and line.  Wall-clock
`timestamp`s are omitted from the recorded events. -/

/-- A raw interpreter event handed to `trace_function`. -/
inductive RawEvent where
  | call : String → String → Nat → List (String × Value) → RawEvent
  | ret : String → String → Nat → Value → RawEvent

/-- Embeds `CallEvent.event_type`. -/
inductive EventKind where
  | call : EventKind
  | ret : EventKind
deriving DecidableEq

/-- Embeds `CallEvent` (minus the wall-clock `timestamp` field). -/
structure CallEvent where
  event_type : EventKind
  function_name : String
  filename : String
  line_number : Nat
  args : List (String × Value) := []
  return_value : Option Value := none
  depth : Nat

/-- Embeds `FunctionTracer.should_trace_frame`: skip `<...>` pseudo-files and
`site-packages`, skip dunder names, honour the module allow-list when
present, otherwise skip recognized system paths. -/
def should_trace_frame (filter_modules : List String)
    (filename function_name : String) : Bool :=
  if (strContainsSub filename "<" && strContainsSub filename ">") ||
      strContainsSub filename "site-packages" then
    false
  else if (fun n => "__".toList.isPrefixOf n.toList &&
      "__".toList.reverse.isPrefixOf n.toList.reverse) function_name then
    false
  else if !filter_modules.isEmpty then
    filter_modules.any (fun m => strContainsSub filename m)
  else
    !(["/usr/lib", "/usr/local/lib", "site-packages"].any
        (fun skip => strContainsSub filename skip))

/-- Tracer state: the accumulated `events` and the open-call stack
(Python appends and pops at the end of `call_stack`; the model pushes and
pops at the head, which carries the same length information). -/
structure TracerState where
  events : List CallEvent
  call_stack : List CallEvent

/-- The tracer state after `start_tracing` (both lists cleared). -/
def tracerInit : TracerState := ⟨[], []⟩

/-- Embeds `FunctionTracer.trace_function` on one event: uninteresting frames are
skipped; a `call` is recorded at `depth = len(call_stack)` and pushed; a
`return` (when the stack is nonempty) pops and is recorded at
`depth - 1`. -/
def trace_function (filter_modules : List String) (st : TracerState)
    (ev : RawEvent) : TracerState :=
  match ev with
  | .call function_name filename line args =>
      if should_trace_frame filter_modules filename function_name then
        let call_event : CallEvent :=
          { event_type := .call, function_name := function_name,
            filename := filename, line_number := line, args := args,
            depth := st.call_stack.length }
        { events := st.events ++ [call_event],
          call_stack := call_event :: st.call_stack }
      else st
  | .ret function_name filename line value =>
      if should_trace_frame filter_modules filename function_name then
        match st.call_stack with
        | [] => st
        | _ :: rest =>
            let return_event : CallEvent :=
              { event_type := .ret, function_name := function_name,
                filename := filename, line_number := line,
                return_value := some value,
                depth := st.call_stack.length - 1 }
            { events := st.events ++ [return_event], call_stack := rest }
      else st

/-- A whole trace session: fold `trace_function` over the event stream. -/
def runTracer (filter_modules : List String) (st : TracerState)
    (raws : List RawEvent) : TracerState :=
  raws.foldl (trace_function filter_modules) st

/-- The events a session emits, computed feed-forward from the number of
open calls (the emitted events depend on the stack only through its
length). -/
def traceEmit (filter_modules : List String) (openCalls : Nat) :
    List RawEvent → List CallEvent
  | [] => []
  | .call function_name filename line args :: rest =>
      if should_trace_frame filter_modules filename function_name then
        { event_type := .call, function_name := function_name,
          filename := filename, line_number := line, args := args,
          depth := openCalls : CallEvent } ::
          traceEmit filter_modules (openCalls + 1) rest
      else traceEmit filter_modules openCalls rest
  | .ret function_name filename line value :: rest =>
      if should_trace_frame filter_modules filename function_name then
        match openCalls with
        | 0 => traceEmit filter_modules 0 rest
        | n + 1 =>
            { event_type := .ret, function_name := function_name,
              filename := filename, line_number := line,
              return_value := some value, depth := n : CallEvent } ::
              traceEmit filter_modules n rest
      else traceEmit filter_modules openCalls rest

/-- Executable check of the depth law over an event list: a `call` is at
depth = number of currently open calls, a `return` closes the innermost
open call (depth = open count − 1, required positive). -/
def depthCheck (openCalls : Nat) : List CallEvent → Bool
  | [] => true
  | e :: rest =>
      match e.event_type with
      | .call => e.depth == openCalls && depthCheck (openCalls + 1) rest
      | .ret =>
          openCalls != 0 && e.depth + 1 == openCalls &&
            depthCheck (openCalls - 1) rest

/-- The `sys.settrace` event stream of running `outer(5)` where
`outer(x)` calls `inner(x)` once and returns its value (both defined in a
user file `example.py`): call-outer, call-inner, return-inner,
return-outer. -/
def rawsOuterInner : List RawEvent :=
  [.call "outer" "example.py" 1 [("x", .vInt 5)],
   .call "inner" "example.py" 5 [("x", .vInt 5)],
   .ret "inner" "example.py" 6 (.vInt 10),
   .ret "outer" "example.py" 2 (.vInt 10)]

/-- The `sys.settrace` event stream of running naive recursive
`factorial(4)` (base case `n <= 1`) from `example.py`: four nested calls,
then the four returns. -/
def rawsFactorial : List RawEvent :=
  [.call "factorial" "example.py" 10 [("n", .vInt 4)],
   .call "factorial" "example.py" 10 [("n", .vInt 3)],
   .call "factorial" "example.py" 10 [("n", .vInt 2)],
   .call "factorial" "example.py" 10 [("n", .vInt 1)],
   .ret "factorial" "example.py" 12 (.vInt 1),
   .ret "factorial" "example.py" 13 (.vInt 2),
   .ret "factorial" "example.py" 13 (.vInt 6),
   .ret "factorial" "example.py" 13 (.vInt 24)]

/-! ## Lemmas about the sensitivity filter -/

theorem filterStringValue_vStr_cases (sk : List String) (s : String) :
    filterStringValue sk (.vStr s) = .vStr s ∨
      filterStringValue sk (.vStr s) = .vStr sensitiveStringPlaceholder := by
  simp only [filterStringValue]
  split
  · exact Or.inr rfl
  · exact Or.inl rfl

theorem filterStringValue_ssp (sk : List String) :
    filterStringValue sk (.vStr sensitiveStringPlaceholder) =
      .vStr sensitiveStringPlaceholder := by
  simp only [filterStringValue]
  split <;> rfl

theorem filterStringValue_idem (sk : List String) (v : Value) :
    filterStringValue sk (filterStringValue sk v) = filterStringValue sk v := by
  cases v with
  | vStr s =>
      rcases filterStringValue_vStr_cases sk s with h | h <;> rw [h]
      · exact h
      · exact filterStringValue_ssp sk
  | vInt _ => rfl
  | vBool _ => rfl
  | vNone => rfl
  | vDict _ => rfl
  | vList _ => rfl
  | vTuple _ => rfl
  | vSet _ => rfl

theorem mem_of_mem_dedupValues {v : Value} :
    ∀ {l : List Value}, v ∈ dedupValues l → v ∈ l
  | [], h => by simp [dedupValues] at h
  | w :: rest, h => by
      by_cases hm : memValue w rest = true
      · simp only [dedupValues, if_pos hm] at h
        exact List.mem_cons_of_mem w (mem_of_mem_dedupValues h)
      · simp only [dedupValues, if_neg hm] at h
        rcases List.mem_cons.mp h with h1 | h1
        · exact h1 ▸ List.mem_cons_self w rest
        · exact List.mem_cons_of_mem w (mem_of_mem_dedupValues h1)

theorem memValue_of_memValue_dedupValues {v : Value} :
    ∀ {l : List Value}, memValue v (dedupValues l) = true → memValue v l = true
  | [], h => h
  | w :: rest, h => by
      by_cases hm : memValue w rest = true
      · simp only [dedupValues, if_pos hm] at h
        have ih := memValue_of_memValue_dedupValues h
        simp only [memValue, List.any_cons] at ih ⊢
        rw [ih, Bool.or_true]
      · simp only [dedupValues, if_neg hm] at h
        simp only [memValue, List.any_cons] at h ⊢
        rw [Bool.or_eq_true] at h ⊢
        rcases h with h1 | h1
        · exact Or.inl h1
        · exact Or.inr (memValue_of_memValue_dedupValues h1)

theorem dedupValues_idem : ∀ l : List Value,
    dedupValues (dedupValues l) = dedupValues l
  | [] => rfl
  | w :: rest => by
      by_cases hm : memValue w rest = true
      · simp only [dedupValues, if_pos hm]
        exact dedupValues_idem rest
      · have hm' : ¬ memValue w (dedupValues rest) = true := fun hc =>
          hm (memValue_of_memValue_dedupValues hc)
        simp only [dedupValues, if_neg hm, if_neg hm']
        rw [dedupValues_idem rest]

theorem deepFilterItems_eq_self (c : CaptureConfig) :
    ∀ {l : List Value}, (∀ v ∈ l, deepFilterValue c v = v) →
      deepFilterItems c l = l
  | [], _ => rfl
  | w :: rest, h => by
      simp only [deepFilterItems]
      rw [h w (List.mem_cons_self w rest),
        deepFilterItems_eq_self c (fun v hv => h v (List.mem_cons_of_mem w hv))]

mutual

theorem deepFilterValue_idem (c : CaptureConfig) : (v : Value) →
    deepFilterValue c (deepFilterValue c v) = deepFilterValue c v
  | .vInt _ => rfl
  | .vBool _ => rfl
  | .vNone => rfl
  | .vStr s => by
      show deepFilterValue c (filterStringValue (buildSensitiveKeys c) (.vStr s)) =
        filterStringValue (buildSensitiveKeys c) (.vStr s)
      rcases filterStringValue_vStr_cases (buildSensitiveKeys c) s with h | h <;> rw [h]
      · show filterStringValue (buildSensitiveKeys c) (.vStr s) = .vStr s
        exact h
      · exact filterStringValue_ssp (buildSensitiveKeys c)
  | .vDict es => by
      simp only [deepFilterValue]
      rw [deepFilterEntries_idem c es]
  | .vList vs => by
      simp only [deepFilterValue]
      rw [deepFilterItems_eq_self c (deepFilterItems_fix c vs)]
  | .vTuple vs => by
      simp only [deepFilterValue]
      rw [deepFilterItems_eq_self c (deepFilterItems_fix c vs)]
  | .vSet vs => by
      simp only [deepFilterValue]
      rw [deepFilterItems_eq_self c
          (fun v hv => deepFilterItems_fix c vs v (mem_of_mem_dedupValues hv)),
        dedupValues_idem]

theorem deepFilterEntries_idem (c : CaptureConfig) : (es : List (String × Value)) →
    deepFilterEntries c (deepFilterEntries c es) = deepFilterEntries c es
  | [] => rfl
  | (k, v) :: rest => by
      by_cases h : isSensitiveKey c k = true
      · simp only [deepFilterEntries, if_pos h]
        rw [deepFilterEntries_idem c rest]
      · simp only [deepFilterEntries, if_neg h]
        rw [deepFilterValue_idem c v, deepFilterEntries_idem c rest]

theorem deepFilterItems_fix (c : CaptureConfig) : (vs : List Value) → ∀ v,
    v ∈ deepFilterItems c vs → deepFilterValue c v = v
  | [], v, hv => by simp [deepFilterItems] at hv
  | w :: rest, v, hv => by
      simp only [deepFilterItems, List.mem_cons] at hv
      rcases hv with h | h
      · subst h
        exact deepFilterValue_idem c w
      · exact deepFilterItems_fix c rest v h

end

theorem filterTopEntry_idem (c : CaptureConfig) (kv : String × Value) :
    filterTopEntry c (filterTopEntry c kv) = filterTopEntry c kv := by
  obtain ⟨k, v⟩ := kv
  by_cases h : c.is_arg_ignored k = true
  · simp only [filterTopEntry, if_pos h]
  · simp only [filterTopEntry, if_neg h]
    rw [deepFilterValue_idem]

/-- C9: argument filtering is idempotent — for every configuration and
every argument mapping, applying `filter_args_dict` to an already-filtered
mapping yields the same mapping (every placeholder produced by one pass is
left unchanged by a second pass). -/
theorem filter_args_dict_idempotent (c : CaptureConfig)
    (args_dict : List (String × Value)) :
    filter_args_dict c (filter_args_dict c args_dict) =
      filter_args_dict c args_dict := by
  induction args_dict with
  | nil => rfl
  | cons kv rest ih =>
      simp only [filter_args_dict, List.map_cons] at ih ⊢
      rw [filterTopEntry_idem, ih]

/-- C6 counterexample: under the default configuration the key `"hash"`
(likewise `"my_password"`, `"salt"`, …) is kept untouched as a top-level
argument name — none of the configured patterns `password`, `token`,
`secret`, `key`, `auth` matches it in full — yet the very same key name is
replaced by a placeholder when it occurs as a nested mapping key, because
nested keys are additionally matched by substring against the built-in
sensitive vocabulary (`_is_sensitive_key`).  So a key name can be replaced
at depth > 0 although it would not be replaced at the top level. -/
theorem nested_key_filtering_differs_from_top_level :
    filter_args_dict defaultConfig [("hash", .vStr "v")] =
        [("hash", .vStr "v")] ∧
      filter_args_dict defaultConfig
          [("outer", .vDict [("hash", .vStr "v")])] =
        [("outer", .vDict [("hash", .vStr "<FILTERED:HASH>")])] :=
  ⟨rfl, rfl⟩

/-- C6 amended: the inclusion holds in one direction only — every key name
replaced at the top level (`is_arg_ignored`) is replaced by the same
placeholder at any nesting depth (nested keys are checked with
`_is_sensitive_key`, which contains `is_arg_ignored` as its first
disjunct); the converse fails because nested keys are additionally
replaced when a built-in sensitive keyword occurs as a substring of the
lowercased key name. -/
theorem top_level_filtered_key_also_filtered_nested (c : CaptureConfig)
    (k : String) (v : Value) (rest : List (String × Value))
    (h : c.is_arg_ignored k = true) :
    filterTopEntry c (k, v) = (k, .vStr (keyPlaceholder k)) ∧
      deepFilterEntries c ((k, v) :: rest) =
        (k, .vStr (keyPlaceholder k)) :: deepFilterEntries c rest := by
  refine ⟨?_, ?_⟩
  · simp only [filterTopEntry]
    rw [if_pos h]
  · have hs : isSensitiveKey c k = true := by
      simp only [isSensitiveKey]
      rw [h, Bool.true_or]
    simp only [deepFilterEntries]
    rw [if_pos hs]

theorem top_level_filtered_key_also_filtered_nested_witness :
    defaultConfig.is_arg_ignored "password" = true ∧
      filterTopEntry defaultConfig ("password", .vInt 0) =
        ("password", .vStr "<FILTERED:PASSWORD>") ∧
      deepFilterEntries defaultConfig [("password", .vInt 0)] =
        [("password", .vStr "<FILTERED:PASSWORD>")] := by
  have h : defaultConfig.is_arg_ignored "password" = true := rfl
  have happ := top_level_filtered_key_also_filtered_nested defaultConfig
    "password" (.vInt 0) [] h
  refine ⟨h, ?_, ?_⟩
  · rw [happ.1]
    rfl
  · rw [happ.2]
    rfl

/-! ## Loader and side-effect bridge theorems -/

/-- C10: whenever the loader's backward-compatibility view
(`CaptureLoader.load_latest`) returns a pair, its `kwargs` component is the
empty mapping and its `args` component is exactly the stored
named-argument values in insertion order — no loaded capture ever presents
keyword arguments separately. -/
theorem loader_view_has_empty_kwargs (st : StorageState) (fn : String)
    (p : List Value × List (String × Value))
    (h : loader_load_latest st fn = some p) :
    p.2 = [] ∧
      ∃ c, load_latest_capture st fn = some c ∧
        p.1 = c.args_dict.map Prod.snd := by
  unfold loader_load_latest at h
  cases hc : load_latest_capture st fn with
  | none => rw [hc] at h; exact absurd h (by simp)
  | some c =>
      rw [hc] at h
      injection h with h'
      subst h'
      exact ⟨rfl, c, rfl, rfl⟩

theorem loader_view_has_empty_kwargs_witness :
    (([Value.vInt 1, Value.vStr "x"], ([] : List (String × Value))).2 = [] ∧
      ∃ c, load_latest_capture
          (save_capture emptyStorage "f" "m"
            [("a", .vInt 1), ("b", .vStr "x")] 2 true 1000).1 "f" = some c ∧
        ([Value.vInt 1, Value.vStr "x"], ([] : List (String × Value))).1 =
          c.args_dict.map Prod.snd) :=
  loader_view_has_empty_kwargs
    (save_capture emptyStorage "f" "m"
      [("a", .vInt 1), ("b", .vStr "x")] 2 true 1000).1 "f"
    ([Value.vInt 1, Value.vStr "x"], []) rfl

/-- C1 counterexample: a strict-mode lookup miss raises `ValueError`, which
is not a `LookupError` (Python's `LookupError` subclasses are `IndexError`
and `KeyError`), so the claim "fails with LookupError" is false at the
empty bucket. -/
theorem strict_miss_not_lookupError :
    side_effect_lookup [] [] [] true =
        .error (.valueErrorExc
          "No matching capture found and SIDE_EFFECT_CAPTURE is not set") ∧
      PyExc.isLookupError (.valueErrorExc
        "No matching capture found and SIDE_EFFECT_CAPTURE is not set") = false :=
  ⟨rfl, rfl⟩

/-- C1 amended: for every lookup where no stored record's `(args, kwargs)`
compares equal to the supplied ones and the strict test-mode flag is
enabled, the lookup fails — but with `ValueError` (message "No matching
capture found and SIDE_EFFECT_CAPTURE is not set"), not `LookupError`. -/
theorem strict_miss_raises_valueError (blobs : List SideEffectRecord)
    (args : List Value) (kwargs : List (String × Value))
    (h : ∀ e ∈ blobs, (beqValues e.args args && beqDict e.kwargs kwargs) = false) :
    side_effect_lookup blobs args kwargs true =
      .error (.valueErrorExc
        "No matching capture found and SIDE_EFFECT_CAPTURE is not set") := by
  unfold side_effect_lookup
  have hnone : blobs.find?
      (fun e => beqValues e.args args && beqDict e.kwargs kwargs) = none := by
    rw [List.find?_eq_none]
    intro e he
    simp [h e he]
  rw [hnone]
  rfl

theorem strict_miss_raises_valueError_witness :
    side_effect_lookup [⟨[.vInt 1], [], .vInt 2⟩] [.vInt 3] [] true =
      .error (.valueErrorExc
        "No matching capture found and SIDE_EFFECT_CAPTURE is not set") :=
  strict_miss_raises_valueError [⟨[.vInt 1], [], .vInt 2⟩] [.vInt 3] []
    (by
      intro e he
      rw [List.mem_singleton] at he
      subst he
      rfl)

/-- C7: for every outcome of the capture step (including any exception it
raised while normalizing, filtering or saving), `_capture_and_call_sync`
still calls the wrapped function with the original arguments and returns
its outcome unchanged — capture-path exceptions never propagate to the
caller. -/
theorem capture_failure_never_propagates
    (captureOutcome : Except PyExc StorageState) (st : StorageState)
    (func : List Value → List (String × Value) → Except PyExc Value)
    (args : List Value) (kwargs : List (String × Value)) :
    (capture_and_call_sync captureOutcome st func args kwargs).2 =
      func args kwargs := by
  cases captureOutcome <;> rfl

/-! ## Tracer lemmas -/

theorem runTracer_events (fm : List String) :
    ∀ (raws : List RawEvent) (st : TracerState),
      (runTracer fm st raws).events =
        st.events ++ traceEmit fm st.call_stack.length raws
  | [], st => by simp [runTracer, traceEmit]
  | .call fn file line args :: raws, st => by
      show (runTracer fm (trace_function fm st (.call fn file line args)) raws).events = _
      rw [runTracer_events fm raws]
      by_cases hf : should_trace_frame fm file fn = true
      · simp only [trace_function, if_pos hf, traceEmit, List.length_cons,
          List.append_assoc, List.singleton_append]
      · simp only [trace_function, if_neg hf, traceEmit]
  | .ret fn file line value :: raws, st => by
      show (runTracer fm (trace_function fm st (.ret fn file line value)) raws).events = _
      rw [runTracer_events fm raws]
      by_cases hf : should_trace_frame fm file fn = true
      · cases hstk : st.call_stack with
        | nil =>
            simp only [trace_function, if_pos hf, hstk, traceEmit,
              List.length_nil]
        | cons top rest =>
            simp only [trace_function, if_pos hf, hstk, traceEmit,
              List.length_cons, Nat.succ_sub_one, List.append_assoc,
              List.singleton_append]
      · simp only [trace_function, if_neg hf, traceEmit]

theorem depthCheck_traceEmit (fm : List String) :
    ∀ (raws : List RawEvent) (n : Nat),
      depthCheck n (traceEmit fm n raws) = true
  | [], _ => rfl
  | .call fn file line args :: raws, n => by
      by_cases hf : should_trace_frame fm file fn = true
      · simp only [traceEmit, if_pos hf, depthCheck, beq_self_eq_true,
          Bool.true_and]
        exact depthCheck_traceEmit fm raws (n + 1)
      · simp only [traceEmit, if_neg hf]
        exact depthCheck_traceEmit fm raws n
  | .ret fn file line value :: raws, n => by
      by_cases hf : should_trace_frame fm file fn = true
      · cases n with
        | zero =>
            simp only [traceEmit, if_pos hf]
            exact depthCheck_traceEmit fm raws 0
        | succ m =>
            simp only [traceEmit, if_pos hf, depthCheck, beq_self_eq_true,
              Bool.true_and, Nat.succ_sub_one]
            rw [Bool.and_eq_true]
            exact ⟨rfl, depthCheck_traceEmit fm raws m⟩
      · simp only [traceEmit, if_neg hf]
        exact depthCheck_traceEmit fm raws n

/-- C8: the tracer's depth bookkeeping — for every module filter and every
raw event stream, the emitted event sequence satisfies the depth law
(each `call` event carries depth = number of currently open traced calls,
each `return` event closes the innermost open call and carries its depth,
in event order, as checked by `depthCheck`); tracing `outer(5)` (where
`outer` calls `inner` once) yields exactly call-outer (depth 0),
call-inner (depth 1), return-inner (depth 1), return-outer (depth 0); and
tracing recursive `factorial(4)` yields exactly 4 `call` events with
depths 0, 1, 2, 3 in call order. -/
theorem tracer_depth_assignment :
    (∀ (filter_modules : List String) (raws : List RawEvent),
        depthCheck 0 (runTracer filter_modules tracerInit raws).events = true) ∧
      (runTracer [] tracerInit rawsOuterInner).events =
        [⟨.call, "outer", "example.py", 1, [("x", .vInt 5)], none, 0⟩,
         ⟨.call, "inner", "example.py", 5, [("x", .vInt 5)], none, 1⟩,
         ⟨.ret, "inner", "example.py", 6, [], some (.vInt 10), 1⟩,
         ⟨.ret, "outer", "example.py", 2, [], some (.vInt 10), 0⟩] ∧
      ((runTracer [] tracerInit rawsFactorial).events.filter
          (fun e => e.event_type == EventKind.call)).map (fun e => e.depth) =
        [0, 1, 2, 3] := by
  refine ⟨?_, rfl, rfl⟩
  intro fm raws
  rw [runTracer_events fm raws tracerInit]
  simpa using depthCheck_traceEmit fm raws 0

/-! ## Glob-matching lemmas -/

theorem globMatchL_star_nil (f : Nat) (ps : List Char) :
    globMatchL (f + 1) ('*' :: ps) [] = globMatchL f ps [] := by
  simp [globMatchL]

theorem globMatchL_star_cons (f : Nat) (ps : List Char) (t : Char)
    (ts' : List Char) :
    globMatchL (f + 1) ('*' :: ps) (t :: ts') =
      (globMatchL f ps (t :: ts') || globMatchL f ('*' :: ps) ts') := by
  simp [globMatchL]

theorem globMatchL_lit_nil (f : Nat) (p : Char) (ps : List Char)
    (hp : p ≠ '*') : globMatchL (f + 1) (p :: ps) [] = false := by
  simp [globMatchL, hp]

theorem globMatchL_lit_cons (f : Nat) (p : Char) (ps : List Char) (t : Char)
    (ts' : List Char) (hp : p ≠ '*') :
    globMatchL (f + 1) (p :: ps) (t :: ts') =
      (p == t && globMatchL f ps ts') := by
  simp [globMatchL, hp]

theorem globMatchL_mono : ∀ (f g : Nat) (ps ts : List Char), f ≤ g →
    globMatchL f ps ts = true → globMatchL g ps ts = true
  | 0, _, _, _, _, h => by simp [globMatchL] at h
  | f + 1, g, ps, ts, hle, h => by
      obtain ⟨g', rfl⟩ : ∃ g', g = g' + 1 := by
        cases g with
        | zero => omega
        | succ g' => exact ⟨g', rfl⟩
      have hfg : f ≤ g' := by omega
      cases ps with
      | nil => exact h
      | cons p ps =>
          by_cases hp : p = '*'
          · subst hp
            cases ts with
            | nil =>
                rw [globMatchL_star_nil] at h ⊢
                exact globMatchL_mono f g' ps [] hfg h
            | cons t ts' =>
                rw [globMatchL_star_cons, Bool.or_eq_true] at h ⊢
                rcases h with h | h
                · exact Or.inl (globMatchL_mono f g' ps (t :: ts') hfg h)
                · exact Or.inr (globMatchL_mono f g' ('*' :: ps) ts' hfg h)
          · cases ts with
            | nil =>
                rw [globMatchL_lit_nil f p ps hp] at h
                exact absurd h (by decide)
            | cons t ts' =>
                rw [globMatchL_lit_cons _ _ _ _ _ hp, Bool.and_eq_true] at h ⊢
                exact ⟨h.1, globMatchL_mono f g' ps ts' hfg h.2⟩

theorem globMatchL_lit : ∀ (l : List Char), (∀ ch ∈ l, ch ≠ '*') →
    ∀ (ps ts : List Char) (f : Nat), globMatchL f ps ts = true →
    globMatchL (f + l.length) (l ++ ps) (l ++ ts) = true
  | [], _, _, _, _, h => h
  | c :: l, hstar, ps, ts, f, h => by
      have hc : c ≠ '*' := hstar c (List.mem_cons_self c l)
      have ih := globMatchL_lit l
        (fun ch hch => hstar ch (List.mem_cons_of_mem c hch)) ps ts f h
      show globMatchL ((f + l.length) + 1) (c :: (l ++ ps)) (c :: (l ++ ts)) = true
      rw [globMatchL_lit_cons _ _ _ _ _ hc, Bool.and_eq_true]
      exact ⟨beq_self_eq_true c, ih⟩

theorem globMatchL_star : ∀ (mid ps ts : List Char) (f : Nat),
    globMatchL f ps ts = true →
    globMatchL (f + mid.length + 1) ('*' :: ps) (mid ++ ts) = true
  | [], ps, ts, f, h => by
      show globMatchL (f + 1) ('*' :: ps) ts = true
      cases ts with
      | nil =>
          rw [globMatchL_star_nil]
          exact h
      | cons t ts' =>
          rw [globMatchL_star_cons, Bool.or_eq_true]
          exact Or.inl h
  | m :: mid, ps, ts, f, h => by
      have ih := globMatchL_star mid ps ts f h
      show globMatchL ((f + mid.length + 1) + 1) ('*' :: ps) (m :: (mid ++ ts)) = true
      rw [globMatchL_star_cons, Bool.or_eq_true]
      exact Or.inr ih

/-- The filename a save generates always glob-matches its own function's
`{fn}_*.pkl` listing pattern (for `*`-free function names — Python
identifiers never contain `*`). -/
theorem globMatch_filename (fn ms : String)
    (hstar : ∀ ch ∈ fn.toList, ch ≠ '*') :
    globMatch (fn ++ "_*.pkl") (fn ++ "_" ++ ms ++ ".pkl") = true := by
  have h1 : globMatchL 5 ".pkl".toList ".pkl".toList = true := rfl
  have h2 := globMatchL_star ms.toList ".pkl".toList ".pkl".toList 5 h1
  have hstar' : ∀ ch ∈ fn.toList ++ ['_'], ch ≠ '*' := by
    intro ch hch
    rcases List.mem_append.mp hch with h | h
    · exact hstar ch h
    · rw [List.mem_singleton] at h
      subst h
      decide
  have h3 := globMatchL_lit (fn.toList ++ ['_']) hstar'
    ('*' :: ".pkl".toList) (ms.toList ++ ".pkl".toList) (5 + ms.toList.length + 1) h2
  rw [List.append_assoc, List.append_assoc] at h3
  have hpat : (fn ++ "_*.pkl").toList =
      fn.toList ++ (['_'] ++ ('*' :: ".pkl".toList)) := by
    simp only [String.toList, String.data_append]
    rfl
  have htext : (fn ++ "_" ++ ms ++ ".pkl").toList =
      fn.toList ++ (['_'] ++ (ms.toList ++ ".pkl".toList)) := by
    simp only [String.toList, String.data_append, List.append_assoc]
  have hle : (5 + ms.toList.length + 1) + (fn.toList ++ ['_']).length ≤
      (fn ++ "_*.pkl").length + (fn ++ "_" ++ ms ++ ".pkl").length + 1 := by
    have e1 : (fn ++ "_*.pkl").length = fn.toList.length + 6 := by
      rw [String.length_append]
      rfl
    have e2 : (fn ++ "_" ++ ms ++ ".pkl").length =
        fn.toList.length + 1 + ms.toList.length + 4 := by
      rw [String.length_append, String.length_append, String.length_append]
      rfl
    rw [e1, e2, List.length_append]
    simp only [List.length_singleton]
    omega
  unfold globMatch
  rw [hpat, htext]
  exact globMatchL_mono _ _ _ _ hle h3

/-! ## Storage lemmas -/

theorem consistentPaths_fsWrite {st : StorageState} {name : String}
    {cap : CapturedCall} (hcons : consistentPaths st)
    (hcap : cap.metadata.file_path = name) :
    consistentPaths (fsWrite st name cap) := by
  intro e he
  unfold fsWrite at he
  by_cases hany : st.files.any (fun e => e.1 == name) = true
  · rw [if_pos hany] at he
    rcases List.mem_map.mp he with ⟨e0, he0, heq⟩
    by_cases h0 : (e0.1 == name) = true
    · rw [if_pos h0] at heq
      subst heq
      exact hcap
    · rw [if_neg h0] at heq
      subst heq
      exact hcons e0 he0
  · rw [if_neg hany] at he
    rcases List.mem_append.mp he with h | h
    · exact hcons e h
    · rw [List.mem_singleton] at h
      subst h
      exact hcap

theorem nodupKeys_fsWrite {st : StorageState} {name : String}
    {cap : CapturedCall} (hnd : nodupKeys st) :
    nodupKeys (fsWrite st name cap) := by
  unfold nodupKeys fsWrite
  by_cases hany : st.files.any (fun e => e.1 == name) = true
  · rw [if_pos hany]
    have hmap : (st.files.map
        (fun e => if e.1 == name then (name, cap) else e)).map Prod.fst =
        st.files.map Prod.fst := by
      rw [List.map_map]
      apply List.map_congr_left
      intro e _
      by_cases h0 : (e.1 == name) = true
      · simp only [Function.comp, if_pos h0]
        exact (eq_of_beq h0).symm
      · simp only [Function.comp, if_neg h0]
    rw [hmap]
    exact hnd
  · rw [if_neg hany, List.map_append]
    have hnot : name ∉ st.files.map Prod.fst := by
      intro hmem
      rcases List.mem_map.mp hmem with ⟨e, he, heq⟩
      rw [Bool.not_eq_true, List.any_eq_false] at hany
      exact hany e he (by rw [heq]; exact beq_self_eq_true name)
    have hnd' : (st.files.map Prod.fst).Nodup := hnd
    simp [List.nodup_append, hnd', hnot]

theorem files_after_removals : ∀ (rs : List CapturedCall) (st : StorageState),
    (rs.foldl (fun s c => fsRemove s c.metadata.file_path) st).files =
      st.files.filter
        (fun e => decide (∀ c ∈ rs, ¬ e.1 = c.metadata.file_path))
  | [], st => by simp
  | r :: rs, st => by
      show (rs.foldl _ (fsRemove st r.metadata.file_path)).files = _
      rw [files_after_removals rs (fsRemove st r.metadata.file_path)]
      show (st.files.filter
          (fun e => decide (¬ e.1 = r.metadata.file_path))).filter _ = _
      rw [List.filter_filter]
      apply List.filter_congr
      intro e _
      rw [← Bool.decide_and, decide_eq_decide]
      constructor
      · rintro ⟨hall, hr⟩ c hc
        rcases List.mem_cons.mp hc with h | h
        · subst h; exact hr
        · exact hall c h
      · intro hall
        exact ⟨fun c hc => hall c (List.mem_cons_of_mem r hc),
          hall r (List.mem_cons_self r rs)⟩

/-- C2 (code-bug exhibit): two saves for the same function identity within
the same millisecond generate the identical filename — the timestamp is
rendered at millisecond resolution — so the second save's atomic rename
replaces the first record and only one record remains stored; the claim
requires both to survive. -/
theorem same_millisecond_save_overwrites :
    generate_filename "f" 1000 = generate_filename "f" 1500 ∧
      (list_captures (save_capture
          (save_capture emptyStorage "f" "m" [("a", .vInt 1)] 2 true 1000).1
          "f" "m" [("a", .vInt 2)] 2 true 1500).1 "f").map
        (fun c => c.args_dict) = [[("a", .vInt 2)]] :=
  ⟨rfl, rfl⟩

/-- Writing into a bucket whose listing is empty leaves exactly the new
record in the listing (for a `*`-free function name and positive
retention). -/
theorem list_captures_write_empty (st : StorageState) (fn mod : String)
    (args : List (String × Value)) (K now : Nat)
    (hstar : ∀ ch ∈ fn.toList, ch ≠ '*')
    (hempty : list_captures st fn = [])
    (hK : 1 ≤ K) :
    list_captures (save_capture_write st fn mod args K now).1 fn =
      [mkCapture fn mod args now] := by
  have hfilt : matching_files st fn = [] := by
    have hlen := congrArg List.length hempty
    rw [list_captures, List.length_insertionSort, List.length_map] at hlen
    exact List.length_eq_zero.mp hlen
  have hmatch : globMatch (fn ++ "_*.pkl") (generate_filename fn now) = true := by
    rw [generate_filename]
    exact globMatch_filename fn (toString (now / 1000)) hstar
  have hany : (st.files.any (fun e => e.1 == generate_filename fn now)) = false := by
    rw [List.any_eq_false]
    intro e he heq
    have hmem : e ∈ matching_files st fn := by
      rw [matching_files, List.mem_filter]
      exact ⟨he, by rw [eq_of_beq heq]; exact hmatch⟩
    rw [hfilt] at hmem
    exact List.not_mem_nil e hmem
  have hw : (fsWrite st (generate_filename fn now)
      (mkCapture fn mod args now)).files =
      st.files ++ [(generate_filename fn now, mkCapture fn mod args now)] := by
    rw [fsWrite, if_neg (by rw [hany]; exact Bool.false_ne_true)]
  have hlist : list_captures (fsWrite st (generate_filename fn now)
      (mkCapture fn mod args now)) fn = [mkCapture fn mod args now] := by
    rw [list_captures, matching_files, hw, List.filter_append]
    have hmf : st.files.filter (fun e => globMatch (fn ++ "_*.pkl") e.1) = [] :=
      hfilt
    rw [hmf]
    simp [hmatch, List.insertionSort, List.orderedInsert]
  show list_captures (cleanup_old_captures (fsWrite st (generate_filename fn now)
      (mkCapture fn mod args now)) fn K) fn = _
  have hcl : cleanup_old_captures (fsWrite st (generate_filename fn now)
      (mkCapture fn mod args now)) fn K =
      fsWrite st (generate_filename fn now) (mkCapture fn mod args now) := by
    rw [cleanup_old_captures]
    simp [hlist, hK]
  rw [hcl, hlist]

/-- C4: capture-once semantics of `overwrite=False`.  First conjunct: when
at least one record already exists for the identity, `save_capture` with
`overwrite=False` stores nothing (the state is returned unchanged) and
returns the location of the existing newest record.  Second conjunct: three
consecutive `overwrite=False` saves on a previously-empty identity leave
exactly one stored record, holding the arguments of the first call only
(for a `*`-free function name and retention ≥ 1). -/
theorem save_overwrite_false_capture_once :
    (∀ (st : StorageState) (fn mod : String) (args : List (String × Value))
        (K now : Nat) (c : CapturedCall) (rest : List CapturedCall),
        list_captures st fn = c :: rest →
        save_capture st fn mod args K false now = (st, c.metadata.file_path)) ∧
      (∀ (st : StorageState) (fn mod : String)
          (a1 a2 a3 : List (String × Value)) (K n1 n2 n3 : Nat),
        (∀ ch ∈ fn.toList, ch ≠ '*') → 1 ≤ K →
        list_captures st fn = [] →
        list_captures (save_capture ((save_capture
            ((save_capture st fn mod a1 K false n1).1)
            fn mod a2 K false n2).1) fn mod a3 K false n3).1 fn =
          [mkCapture fn mod a1 n1]) := by
  have part1 : ∀ (st : StorageState) (fn mod : String)
      (args : List (String × Value)) (K now : Nat) (c : CapturedCall)
      (rest : List CapturedCall), list_captures st fn = c :: rest →
      save_capture st fn mod args K false now = (st, c.metadata.file_path) := by
    intro st fn mod args K now c rest h
    rw [save_capture]
    have hhas : has_existing_captures st fn = true := by
      rw [has_existing_captures, h]
      rfl
    rw [hhas, h]
    simp
  refine ⟨part1, ?_⟩
  intro st fn mod a1 a2 a3 K n1 n2 n3 hstar hK hempty
  have h1 : save_capture st fn mod a1 K false n1 =
      save_capture_write st fn mod a1 K n1 := by
    rw [save_capture]
    have hhas : has_existing_captures st fn = false := by
      rw [has_existing_captures, hempty]
      rfl
    rw [hhas]
    simp
  have hl1 : list_captures (save_capture_write st fn mod a1 K n1).1 fn =
      [mkCapture fn mod a1 n1] :=
    list_captures_write_empty st fn mod a1 K n1 hstar hempty hK
  rw [h1, part1 _ fn mod a2 K n2 _ [] hl1]
  rw [show ((save_capture_write st fn mod a1 K n1).1,
      (mkCapture fn mod a1 n1).metadata.file_path).1 =
      (save_capture_write st fn mod a1 K n1).1 from rfl]
  rw [part1 _ fn mod a3 K n3 _ [] hl1]
  exact hl1

theorem save_overwrite_false_capture_once_witness :
    list_captures (save_capture ((save_capture
        ((save_capture emptyStorage "g" "m" [("a", .vInt 1)] 2 false 1000).1)
        "g" "m" [("a", .vInt 2)] 2 false 2000).1)
        "g" "m" [("a", .vInt 3)] 2 false 3000).1 "g" =
      [mkCapture "g" "m" [("a", .vInt 1)] 1000] :=
  save_overwrite_false_capture_once.2 emptyStorage "g" "m"
    [("a", .vInt 1)] [("a", .vInt 2)] [("a", .vInt 3)] 2 1000 2000 3000
    (by decide) (by decide) rfl

/-- C3 counterexample: with three records stored (saved at retention 10),
a further `save_capture` with `retention = 1` and `overwrite = False`
completes as a no-op — the early-return path skips pruning entirely — and
leaves 3 > 1 records stored, so the record count can exceed the retention
of a completed save. -/
theorem retention_skipped_on_capture_once_path :
    (list_captures (save_capture ((save_capture ((save_capture
        (save_capture emptyStorage "h" "m" [] 10 true 1000).1
        "h" "m" [] 10 true 2000).1) "h" "m" [] 10 true 3000).1)
        "h" "m" [] 1 false 4000).1 "h").length = 3 ∧ ¬ (3 ≤ 1) :=
  ⟨rfl, by decide⟩

/-- C3 amended: the retention invariant holds for every save that takes
the writing path (`overwrite = true`, or no record exists yet for the
identity — the `overwrite=False` no-op path skips pruning): afterwards at
most `K` records are listed for the identity, they are exactly (a
permutation of) the first `K` entries of the newest-first listing as it
stood right after the write, and every surviving record is at least as
recent as every pruned one. -/
theorem save_capture_retention_writes (st : StorageState) (fn mod : String)
    (args : List (String × Value)) (K : Nat) (ow : Bool) (now : Nat)
    (hwrite : ow = true ∨ list_captures st fn = [])
    (hcons : consistentPaths st) (hnd : nodupKeys st) :
    (list_captures (save_capture st fn mod args K ow now).1 fn).length ≤ K ∧
      (list_captures (save_capture st fn mod args K ow now).1 fn).Perm
        ((list_captures (fsWrite st (generate_filename fn now)
          (mkCapture fn mod args now)) fn).take K) ∧
      (∀ a ∈ list_captures (save_capture st fn mod args K ow now).1 fn,
        ∀ b ∈ (list_captures (fsWrite st (generate_filename fn now)
          (mkCapture fn mod args now)) fn).drop K,
        b.metadata.timestamp ≤ a.metadata.timestamp) := by
  have hred : (save_capture st fn mod args K ow now).1 =
      cleanup_old_captures (fsWrite st (generate_filename fn now)
        (mkCapture fn mod args now)) fn K := by
    rcases hwrite with h | h
    · subst h
      rw [save_capture]
      simp [save_capture_write]
    · rw [save_capture]
      have hhas : has_existing_captures st fn = false := by
        rw [has_existing_captures, h]
        rfl
      rw [hhas]
      simp [save_capture_write]
  rw [hred]
  have hsorted : List.Sorted newerEq (list_captures (fsWrite st
      (generate_filename fn now) (mkCapture fn mod args now)) fn) := by
    rw [list_captures]
    exact List.sorted_insertionSort newerEq _
  have hperm : (list_captures (fsWrite st (generate_filename fn now)
      (mkCapture fn mod args now)) fn).Perm
      ((matching_files (fsWrite st (generate_filename fn now)
        (mkCapture fn mod args now)) fn).map Prod.snd) := by
    rw [list_captures]
    exact List.perm_insertionSort newerEq _
  have hconsM : consistentPaths (fsWrite st (generate_filename fn now)
      (mkCapture fn mod args now)) := consistentPaths_fsWrite hcons rfl
  have hndM : nodupKeys (fsWrite st (generate_filename fn now)
      (mkCapture fn mod args now)) := nodupKeys_fsWrite hnd
  by_cases hlen : (list_captures (fsWrite st (generate_filename fn now)
      (mkCapture fn mod args now)) fn).length ≤ K
  · have hcl : cleanup_old_captures (fsWrite st (generate_filename fn now)
        (mkCapture fn mod args now)) fn K =
        fsWrite st (generate_filename fn now) (mkCapture fn mod args now) := by
      simp only [cleanup_old_captures]
      rw [if_pos hlen]
    rw [hcl]
    refine ⟨hlen, ?_, ?_⟩
    · rw [List.take_of_length_le hlen]
    · intro a _ b hb
      rw [List.drop_eq_nil_of_le hlen] at hb
      exact absurd hb (List.not_mem_nil b)
  · have hcl : cleanup_old_captures (fsWrite st (generate_filename fn now)
        (mkCapture fn mod args now)) fn K =
        ((list_captures (fsWrite st (generate_filename fn now)
          (mkCapture fn mod args now)) fn).drop K).foldl
          (fun s c => fsRemove s c.metadata.file_path)
          (fsWrite st (generate_filename fn now) (mkCapture fn mod args now)) := by
      simp only [cleanup_old_captures]
      rw [if_neg hlen]
    rw [hcl]
    -- abbreviations
    generalize hSTM : fsWrite st (generate_filename fn now)
      (mkCapture fn mod args now) = stMid at *
    generalize hLL : list_captures stMid fn = L at *
    -- paths of the listing are pairwise distinct
    have hMpaths : (((matching_files stMid fn).map Prod.snd).map
        (fun c => c.metadata.file_path)).Nodup := by
      rw [List.map_map]
      have hpt : (matching_files stMid fn).map
          ((fun c : CapturedCall => c.metadata.file_path) ∘ Prod.snd) =
          (matching_files stMid fn).map Prod.fst := by
        apply List.map_congr_left
        intro e he
        exact hconsM e (List.mem_filter.mp he).1
      rw [hpt]
      exact hndM.sublist ((List.filter_sublist _).map Prod.fst)
    have hLpaths : (L.map (fun c => c.metadata.file_path)).Nodup :=
      ((hperm.map _).nodup_iff).mpr hMpaths
    -- the removal filter
    have hfiles : ((L.drop K).foldl (fun s c => fsRemove s c.metadata.file_path)
        stMid).files = stMid.files.filter
        (fun e => decide (∀ c ∈ L.drop K, ¬ e.1 = c.metadata.file_path)) :=
      files_after_removals (L.drop K) stMid
    have hmfst' : matching_files ((L.drop K).foldl
        (fun s c => fsRemove s c.metadata.file_path) stMid) fn =
        (matching_files stMid fn).filter
          (fun e => decide (∀ c ∈ L.drop K,
            ¬ e.2.metadata.file_path = c.metadata.file_path)) := by
      rw [matching_files, hfiles, List.filter_filter, matching_files,
        List.filter_filter]
      apply List.filter_congr
      intro e he
      rw [hconsM e he]
      exact Bool.and_comm _ _
    have hmap : (matching_files ((L.drop K).foldl
        (fun s c => fsRemove s c.metadata.file_path) stMid) fn).map Prod.snd =
        ((matching_files stMid fn).map Prod.snd).filter
          (fun r => decide (∀ c ∈ L.drop K,
            ¬ r.metadata.file_path = c.metadata.file_path)) := by
      rw [hmfst', List.filter_map]
      rfl
    -- keep-part survives the filter, killer-part is emptied
    have hdisj : List.Disjoint ((L.take K).map (fun c => c.metadata.file_path))
        ((L.drop K).map (fun c => c.metadata.file_path)) := by
      apply List.disjoint_of_nodup_append
      rw [← List.map_append, List.take_append_drop]
      exact hLpaths
    have hqkeep : (L.take K).filter
        (fun r => decide (∀ c ∈ L.drop K,
          ¬ r.metadata.file_path = c.metadata.file_path)) = L.take K := by
      apply List.filter_eq_self.mpr
      intro r hr
      rw [decide_eq_true_eq]
      intro c hc heq
      exact hdisj (List.mem_map_of_mem _ hr)
        (heq ▸ List.mem_map_of_mem (fun c => c.metadata.file_path) hc)
    have hqkiller : (L.drop K).filter
        (fun r => decide (∀ c ∈ L.drop K,
          ¬ r.metadata.file_path = c.metadata.file_path)) = [] := by
      apply List.filter_eq_nil_iff.mpr
      intro c hc hq
      rw [decide_eq_true_eq] at hq
      exact hq c hc rfl
    have hsplit : L.filter (fun r => decide (∀ c ∈ L.drop K,
        ¬ r.metadata.file_path = c.metadata.file_path)) = L.take K := by
      have h0 := List.filter_append (p := fun r => decide (∀ c ∈ L.drop K,
          ¬ r.metadata.file_path = c.metadata.file_path)) (L.take K) (L.drop K)
      rw [List.take_append_drop, hqkeep, hqkiller, List.append_nil] at h0
      exact h0
    have hfinal : (list_captures ((L.drop K).foldl
        (fun s c => fsRemove s c.metadata.file_path) stMid) fn).Perm
        (L.take K) := by
      have h1 : (list_captures ((L.drop K).foldl
          (fun s c => fsRemove s c.metadata.file_path) stMid) fn).Perm
          ((matching_files ((L.drop K).foldl
            (fun s c => fsRemove s c.metadata.file_path) stMid) fn).map
            Prod.snd) := by
        rw [list_captures]
        exact List.perm_insertionSort newerEq _
      rw [hmap] at h1
      have h2 := (hperm.filter (fun r => decide (∀ c ∈ L.drop K,
        ¬ r.metadata.file_path = c.metadata.file_path)))
      rw [hsplit] at h2
      exact h1.trans h2.symm
    refine ⟨?_, hfinal, ?_⟩
    · rw [hfinal.length_eq, List.length_take]
      exact Nat.min_le_left K L.length
    · intro a ha b hb
      have hpw : List.Pairwise newerEq (L.take K ++ L.drop K) := by
        rw [List.take_append_drop]
        exact hsorted
      exact (List.pairwise_append.mp hpw).2.2 a (hfinal.mem_iff.mp ha) b hb

theorem save_capture_retention_writes_witness :
    (list_captures (save_capture
        (save_capture emptyStorage "f" "m" [] 5 true 1000).1
        "f" "m" [] 1 true 2000).1 "f").length ≤ 1 ∧
      (list_captures (save_capture
          (save_capture emptyStorage "f" "m" [] 5 true 1000).1
          "f" "m" [] 1 true 2000).1 "f").Perm
        ((list_captures (fsWrite
          (save_capture emptyStorage "f" "m" [] 5 true 1000).1
          (generate_filename "f" 2000) (mkCapture "f" "m" [] 2000)) "f").take 1) ∧
      (∀ a ∈ list_captures (save_capture
          (save_capture emptyStorage "f" "m" [] 5 true 1000).1
          "f" "m" [] 1 true 2000).1 "f",
        ∀ b ∈ (list_captures (fsWrite
          (save_capture emptyStorage "f" "m" [] 5 true 1000).1
          (generate_filename "f" 2000) (mkCapture "f" "m" [] 2000)) "f").drop 1,
        b.metadata.timestamp ≤ a.metadata.timestamp) :=
  save_capture_retention_writes
    (save_capture emptyStorage "f" "m" [] 5 true 1000).1 "f" "m" [] 1 true 2000
    (Or.inl rfl)
    (by unfold consistentPaths; decide)
    (by unfold nodupKeys; decide)

/-- C5 (code-bug exhibit): storage buckets records by bare function name
only.  Two different runtime functions named `process` in modules
`module_a` and `module_b` land in the same bucket, and `list_captures
"process"` returns both records; moreover the glob pattern `foo_*.pkl`
also matches files of the distinct function `foo_bar`, so `foo_bar`'s
records appear in `foo`'s listing. -/
theorem function_identity_collision :
    (list_captures (save_capture
        (save_capture emptyStorage "process" "module_a" [("a", .vInt 1)] 5 true 1000).1
        "process" "module_b" [("a", .vInt 2)] 5 true 2000).1 "process").map
      (fun c => c.metadata.module_name) = ["module_b", "module_a"] ∧
      (list_captures (save_capture emptyStorage "foo_bar" "m"
          [("a", .vInt 1)] 5 true 1000).1 "foo").map
        (fun c => c.metadata.function_name) = ["foo_bar"] :=
  ⟨rfl, rfl⟩

end Snapy
